import Mathlib

/-!
Shallow embedding of `src/comicPlayer/comicPlayer.js` (the `ComicPlayer`
constructor, its `load`/`play`/`stop` functions, the timer helper `run` and
the polling function `thread`), together with theorems settling the claims
about this code.

Conventions of the embedding:
* JS numbers that hold millisecond positions and frame indices are `Int`
  (the code compares and subtracts them; no overflow semantics are involved).
* Optional JS object fields (`begin`, `end` before normalization) are
  `Option Int`; the JS falsy test `!x` on a number is `x = 0`.
* The external audio engine (`soundManager`) is an oracle: each step function
  takes the engine-reported observations it reads (`playState`, `position`,
  `duration`, `readyState`) as arguments, and engine commands issued by the
  code (`stopAll`, `setPosition`, `play`) are returned as an event list.
* A JS `TypeError` caused by indexing past the end of an array
  (`audioFrames[i]` being `undefined` followed by a property access) is an
  `Except.error` carrying the state as mutated up to the throwing statement.
-/

namespace ComicPlayer

/-- One raw entry of the `audioFrames` argument: `{url, begin?, end?}`. -/
structure RawFrame where
  url : String
  beginOpt : Option Int
  endOpt : Option Int
deriving DecidableEq, Repr

/-- One entry of `audioFrames` after the constructor's preparation loop:
`begin` and `end` have been overwritten with normalized values and an
`audioRef` index into the `audio` array has been added. -/
structure Frame where
  url : String
  beginMs : Int
  endMs : Int
  audioRef : Nat
deriving DecidableEq, Repr

/-- One entry of the constructor's `audio` array (the `object` field, which
holds the lazily created engine handle, is modelled by the load-gate oracle
and carries no data relevant to the claims). -/
structure AudioEntry where
  id : String
  url : String
deriving DecidableEq, Repr

/-- `if (!x || x < 0) x = -1` on an optional JS number
(lines 54-58 of the source, applied to `begin` and to `end`). -/
def normBound : Option Int → Int
  | none => -1
  | some n => if n ≤ 0 then -1 else n

/-- Normalization of one frame's pair of bounds: both bounds are defaulted
by `normBound`, then swapped when `end !== -1 && end < begin`
(lines 54-64 of the source). -/
def normPair (b e : Option Int) : Int × Int :=
  let b2 := normBound b
  let e2 := normBound e
  if e2 ≠ -1 ∧ e2 < b2 then (e2, b2) else (b2, e2)

/-- The inner linear search of the preparation loop (lines 67-73):
index of the first entry of `audio` whose `url` equals the given url. -/
def indexOfUrl : List AudioEntry → String → Option Nat
  | [], _ => none
  | a :: rest, url =>
      if a.url = url then some 0 else (indexOfUrl rest url).map (· + 1)

/-- One iteration of the constructor's preparation loop (lines 53-82):
normalize the bounds, resolve the url against the `audio` array seen so far
(appending a fresh entry with a synthetic id when unseen) and record the
resulting `audioRef`. -/
def prepareStep (players : Nat) (acc : List Frame × List AudioEntry)
    (r : RawFrame) : List Frame × List AudioEntry :=
  let be := normPair r.beginOpt r.endOpt
  match indexOfUrl acc.2 r.url with
  | some j => (acc.1 ++ [⟨r.url, be.1, be.2, j⟩], acc.2)
  | none =>
      (acc.1 ++ [⟨r.url, be.1, be.2, acc.2.length⟩],
       acc.2 ++ [⟨"comic_" ++ toString players ++ "_" ++ toString acc.2.length,
                  r.url⟩])

/-- The whole preparation loop: fold `prepareStep` over the raw frame list.
`players` is the value of the module-level `ComicPlayer.players` counter used
in the synthetic ids. -/
def prepare (players : Nat) (raws : List RawFrame) :
    List Frame × List AudioEntry :=
  raws.foldl (prepareStep players) ([], [])

/-- The correspondence between a raw entry and the frame the preparation
loop produces from it (everything except the `audioRef`, which depends on
the other entries). -/
def frameMatches (r : RawFrame) (fr : Frame) : Prop :=
  fr.url = r.url ∧ fr.beginMs = (normPair r.beginOpt r.endOpt).1 ∧
    fr.endMs = (normPair r.beginOpt r.endOpt).2

/-- The invariant relating prepared frames to the `audio` array: every
`audioRef` is in bounds and points at the entry holding the frame's url. -/
def audioInv (fs : List Frame) (au : List AudioEntry) : Prop :=
  ∀ fr ∈ fs, fr.audioRef < au.length ∧
    (au.get? fr.audioRef).map (fun a => a.url) = some fr.url

/-- A heap cell: the caller's `audioFrames` array, before or after the
constructor's in-place preparation of its entries. -/
inductive CellVal where
  | raw (frames : List RawFrame)
  | prepared (frames : List Frame)
deriving DecidableEq

/-- The state a `ComicPlayer` instance closes over (lines 50, 84-85,
115-117 of the source): the prepared `audioFrames` and `audio` arrays, the
two loading flags and the three frame cursors of the playback session. -/
structure PlayerState where
  frames : List Frame
  audio : List AudioEntry
  doneLoading : Bool
  errorsLoading : Bool
  fromFrame : Int
  currentFrame : Int
  toFrame : Int
deriving DecidableEq, Repr

/-- A constructed player together with the heap address of the caller's
`audioFrames` array that it closes over. -/
structure PlayerRef where
  framesAddr : Nat
  player : PlayerState
deriving DecidableEq

/-- The `ComicPlayer` constructor acting on a heap of array cells: it reads
the caller's array at `addr`, overwrites that same cell with the prepared
entries (the JS loop mutates `audioFrames[i]` in place) and returns a player
whose closure refers to that cell.  Returns `none` when `addr` does not hold
a raw frame array. -/
def constructPlayer (players : Nat) (addr : Nat) (store : List CellVal) :
    Option (PlayerRef × List CellVal) :=
  match store.get? addr with
  | some (CellVal.raw raws) =>
      some (⟨addr,
        { frames := (prepare players raws).1,
          audio := (prepare players raws).2,
          doneLoading := false, errorsLoading := false,
          fromFrame := -1, currentFrame := -1, toFrame := -1 }⟩,
        store.set addr (CellVal.prepared (prepare players raws).1))
  | _ => none

/-- Commands the code issues to the audio engine and to its notification
callback, in program order.  `requeuePlay` records the
`window.setTimeout(... play(from,to,noToggle) ..., 100)` issued when
`doneLoading` is still false (lines 120-124). -/
inductive Ev where
  | stopAll
  | setPos (ref : Nat) (ms : Int)
  | playSnd (ref : Nat)
  | notify (frame : Int)
  | requeuePlay (a b : Int) (noToggle : Bool)
deriving DecidableEq, Repr

/-- The argument normalization of `play` (lines 126-132): swap when
`from > to`, clamp `from` below by 0 and `to` above by
`audioFrames.length - 1`. -/
def playRange (n : Nat) (a b : Int) : Int × Int :=
  let p := if a > b then (b, a) else (a, b)
  let f := if p.1 < 0 then 0 else p.1
  let t := if p.2 ≥ (n : Int) then (n : Int) - 1 else p.2
  (f, t)

/-- Result of one call to `play` or one run of `thread`: the mutated state,
the engine/notification commands issued, and the argument of the trailing
`run(...)` call when one is made. -/
structure StepOut where
  state : PlayerState
  events : List Ev
  runDelay : Option Int
deriving DecidableEq, Repr

/-- `audioFrames[i]` for an `Int` index: JS yields `undefined` (here `none`)
for any negative or past-the-end index. -/
def frameAt? (frames : List Frame) (i : Int) : Option Frame :=
  if i < 0 then none else frames.get? i.toNat

/-- `this.play = function(from, to, noToggle)` (lines 118-155).
`playing` is the engine-reported truthiness of
`audio[audioFrames[currentFrame].audioRef].object.playState`, read only when
`currentFrame` indexes a frame.  An `Except.error` is the JS `TypeError`
raised when `audioFrames[currentFrame]` is `undefined` in the restart branch
(line 149), carrying the state mutated so far. -/
def playStep (st : PlayerState) (a b : Int) (noToggle playing : Bool) :
    Except PlayerState StepOut :=
  if st.errorsLoading = true then Except.ok ⟨st, [], none⟩
  else
    let pre : List Ev :=
      if st.doneLoading = true then [] else [Ev.requeuePlay a b noToggle]
    let ft := playRange st.frames.length a b
    let st1 : PlayerState := { st with fromFrame := ft.1, toFrame := ft.2 }
    if (0 ≤ st.currentFrame ∧ st.currentFrame < (st.frames.length : Int)) ∧
        playing = true ∧ noToggle = false then
      Except.ok ⟨{ st1 with currentFrame := -1 },
        pre ++ [Ev.stopAll, Ev.notify (-1)], some 0⟩
    else
      match frameAt? st1.frames ft.1 with
      | none => Except.error { st1 with currentFrame := ft.1 }
      | some fr =>
          Except.ok ⟨{ st1 with currentFrame := ft.1 },
            pre ++ [Ev.stopAll,
              Ev.setPos fr.audioRef (if fr.beginMs > 0 then fr.beginMs else 1),
              Ev.playSnd fr.audioRef, Ev.notify ft.1],
            some 0⟩

/-- `this.stop = function()` (lines 156-159). -/
def stopStep (st : PlayerState) : StepOut :=
  ⟨{ st with currentFrame := -1 }, [Ev.stopAll], none⟩

/-- What `thread` reads from the current frame's engine object:
`playState`, `position` and `duration` (the engine is external). -/
structure Obs where
  playState : Bool
  position : Int
  duration : Int
deriving DecidableEq, Repr

/-- Result of one run of `thread`; `bailed` is true when the idle guard at
the top returned early (which also issues `clearInterval(threadId)` and
`clearTimeout(threadId)`). -/
structure ThreadOut where
  state : PlayerState
  events : List Ev
  runDelay : Option Int
  bailed : Bool
deriving DecidableEq, Repr

/-- `function thread()` (lines 187-245), one polling tick.  An
`Except.error` is the JS `TypeError` raised when `audioFrames[currentFrame]`
or `audioFrames[currentFrame+1]` is `undefined`. -/
def threadStep (st : PlayerState) (obs : Obs) : Except PlayerState ThreadOut :=
  if st.currentFrame = -1 ∨
      ¬(st.fromFrame ≤ st.currentFrame ∧ st.currentFrame ≤ st.toFrame) ∨
      st.errorsLoading = true then
    Except.ok ⟨st, [], none, true⟩
  else
    match frameAt? st.frames st.currentFrame with
    | none => Except.error st
    | some cur =>
        if obs.playState = true then
          if cur.beginMs ≤ obs.position + 200 ∧
              (cur.endMs ≥ obs.position ∨ cur.endMs = -1) then
            let d := (if cur.endMs > 0 then cur.endMs else obs.duration) -
              obs.position
            Except.ok ⟨st, [], some (if d < 10 then 10 else d), false⟩
          else if st.currentFrame = st.toFrame then
            Except.ok ⟨{ st with currentFrame := -1 },
              [Ev.stopAll, Ev.notify (-1)], some 10, false⟩
          else
            match frameAt? st.frames (st.currentFrame + 1) with
            | none => Except.error st
            | some nxt =>
                if nxt.audioRef = cur.audioRef ∧ nxt.beginMs ≤ obs.position ∧
                    (nxt.endMs ≥ obs.position ∨ nxt.endMs = -1) then
                  Except.ok ⟨{ st with currentFrame := st.currentFrame + 1 },
                    [Ev.notify (st.currentFrame + 1)], some 10, false⟩
                else
                  Except.ok ⟨{ st with currentFrame := st.currentFrame + 1 },
                    [Ev.stopAll,
                     Ev.setPos nxt.audioRef
                       (if nxt.beginMs > 0 then nxt.beginMs else 1),
                     Ev.playSnd nxt.audioRef,
                     Ev.notify (st.currentFrame + 1)],
                    some 10, false⟩
        else if st.currentFrame = st.toFrame then
          Except.ok ⟨{ st with currentFrame := -1 },
            [Ev.stopAll, Ev.notify (-1)], none, false⟩
        else
          match frameAt? st.frames (st.currentFrame + 1) with
          | none => Except.error st
          | some nxt =>
              Except.ok ⟨{ st with currentFrame := st.currentFrame + 1 },
                [Ev.stopAll,
                 Ev.setPos nxt.audioRef
                   (if nxt.beginMs > 0 then nxt.beginMs else 1),
                 Ev.playSnd nxt.audioRef,
                 Ev.notify (st.currentFrame + 1)],
                some 10, false⟩

/-- The `run(...)` argument of a completed `thread` tick, `none` when the
tick made no `run` call (or threw). -/
def runDelayOf : Except PlayerState ThreadOut → Option Int
  | Except.ok o => o.runDelay
  | Except.error _ => none

/-- `var updateDelay = 100` (line 163): the periodic fallback interval and
the ceiling on every scheduled delay. -/
def updateDelay : Int := 100

/-- A timer pending in the browser event loop: its id, whether it is the
`setInterval` fallback or a one-shot `setTimeout`, and its delay. -/
structure PendingTimer where
  tid : Nat
  isInterval : Bool
  delayMs : Int
deriving DecidableEq, Repr

/-- The timer bookkeeping of the scheduler (lines 161-162): the
`threadTimeoutId` and `threadId` variables, the timers actually pending in
the event loop, and a fresh-id counter. -/
structure RunState where
  threadTimeoutId : Option Nat
  threadId : Option Nat
  pending : List PendingTimer
  nextId : Nat
deriving DecidableEq, Repr

/-- `if (!delay) delay = updateDelay; if (delay > updateDelay) delay =
updateDelay` (lines 175-177). -/
def runEffDelay (d : Int) : Int :=
  let d2 := if d = 0 then updateDelay else d
  if d2 > updateDelay then updateDelay else d2

/-- `function run(delay)` (lines 166-184): a no-op when a precise wake-up is
already pending, otherwise cancel the fallback interval and schedule a
one-shot precise wake-up after the capped delay. -/
def runStep (s : RunState) (delayArg : Int) : RunState :=
  if s.threadTimeoutId.isSome then s
  else
    let s1 :=
      match s.threadId with
      | some tid =>
          { s with pending := s.pending.filter (fun t => t.tid ≠ tid),
                   threadId := none }
      | none => s
    { s1 with
      pending := s1.pending ++ [⟨s1.nextId, false, runEffDelay delayArg⟩],
      threadTimeoutId := some s1.nextId,
      nextId := s1.nextId + 1 }

/-- Number of pending one-shot precise wake-ups. -/
def preciseCount (s : RunState) : Nat :=
  (s.pending.filter (fun t => !t.isInterval)).length

/-- `case 0: case 1:` of the `readyState` switch in `load` (lines 97-105):
the engine states that mark the gate "not done".  The switch runs only for
tracks whose `object` was already bound on a previous pass; a `none` track
takes the creation branch instead and is never inspected. -/
def trackNotReadyYet : Option Nat → Bool
  | none => false
  | some rs => rs == 0 || rs == 1

/-- Result of one pass of `function load()` (lines 86-113). -/
inductive LoadAction where
  | retry50
  | run0
deriving DecidableEq, Repr

/-- The fields a `load` pass reads and writes. -/
structure LoadOut where
  tracks : List (Option Nat)
  doneLoading : Bool
  errorsLoading : Bool
  action : LoadAction
deriving DecidableEq, Repr

/-- One pass of `function load()` (lines 86-113).  A track is `none` when
its `audio[i].object` is still null (the pass then creates the engine sound,
whose engine-reported `readyState` is `freshRs`), and `some rs` when the
object exists with engine-reported `readyState` `rs`.  The pass ends with
`setTimeout(load, 50)` (`retry50`) when `doneLoading` was cleared, and with
`run(0)` otherwise. -/
def loadStep (tracks : List (Option Nat)) (errors0 : Bool) (freshRs : Nat) :
    LoadOut :=
  { tracks := tracks.map (fun o => match o with
      | none => some freshRs
      | some rs => some rs)
    doneLoading := !(tracks.any trackNotReadyYet)
    errorsLoading := errors0 || tracks.any (fun o => o == some 3)
    action := if tracks.any trackNotReadyYet then LoadAction.retry50
              else LoadAction.run0 }

/-- The PlaybackSession invariant of the spec: while a session is active,
`fromFrame <= currentFrame <= toFrame`. -/
def sessionInv (s : PlayerState) : Prop :=
  s.currentFrame ≠ -1 →
    s.fromFrame ≤ s.currentFrame ∧ s.currentFrame ≤ s.toFrame

/-! ### Helper lemmas -/

theorem normPair_repaired (b e : Option Int) :
    (normPair b e).1 = -1 ∨ (normPair b e).2 = -1 ∨
      (normPair b e).1 ≤ (normPair b e).2 := by
  unfold normPair normBound
  cases b <;> cases e <;> simp only [] <;> split_ifs <;> simp_all <;> omega

theorem prepareStep_fst (players : Nat) (acc : List Frame × List AudioEntry)
    (r : RawFrame) :
    ∃ fr, (prepareStep players acc r).1 = acc.1 ++ [fr] ∧ frameMatches r fr := by
  unfold prepareStep
  cases h : indexOfUrl acc.2 r.url <;>
    exact ⟨_, rfl, rfl, rfl, rfl⟩

theorem prepare_foldl_matches (players : Nat) (l : List RawFrame)
    (fs : List Frame) (au : List AudioEntry) :
    ∃ gs, (List.foldl (prepareStep players) (fs, au) l).1 = fs ++ gs ∧
      List.Forall₂ frameMatches l gs := by
  induction l generalizing fs au with
  | nil => exact ⟨[], by simp, List.Forall₂.nil⟩
  | cons r l ih =>
      obtain ⟨fr, hfr, hm⟩ := prepareStep_fst players (fs, au) r
      rcases hstep : prepareStep players (fs, au) r with ⟨fs2, au2⟩
      rw [hstep] at hfr
      obtain ⟨gs, hgs, hall⟩ := ih fs2 au2
      refine ⟨fr :: gs, ?_, List.Forall₂.cons hm hall⟩
      simp only at hfr
      subst hfr
      simp only [List.foldl_cons, hstep, hgs, List.append_assoc,
        List.singleton_append]

theorem prepare_matches (players : Nat) (raws : List RawFrame) :
    List.Forall₂ frameMatches raws (prepare players raws).1 := by
  obtain ⟨gs, hgs, hall⟩ := prepare_foldl_matches players raws [] []
  unfold prepare
  rw [hgs]
  simpa using hall

theorem forall₂_mem_right {R : RawFrame → Frame → Prop}
    {l : List RawFrame} {g : List Frame} (h : List.Forall₂ R l g) :
    ∀ fr ∈ g, ∃ r ∈ l, R r fr := by
  induction h with
  | nil => intro fr hfr; cases hfr
  | cons hab _ ih =>
      intro fr hfr
      rcases List.mem_cons.mp hfr with h1 | h2
      · exact ⟨_, List.mem_cons_self .., h1 ▸ hab⟩
      · obtain ⟨r, hr, hR⟩ := ih fr h2
        exact ⟨r, List.mem_cons_of_mem _ hr, hR⟩

theorem indexOfUrl_spec (au : List AudioEntry) (url : String) (j : Nat)
    (h : indexOfUrl au url = some j) :
    (au.get? j).map (fun a => a.url) = some url := by
  induction au generalizing j with
  | nil => simp [indexOfUrl] at h
  | cons a rest ih =>
      by_cases ha : a.url = url
      · simp [indexOfUrl, ha] at h
        subst h
        simp [ha]
      · simp [indexOfUrl, ha] at h
        obtain ⟨j0, hj0, hj⟩ := h
        subst hj
        simpa using ih j0 hj0

theorem prepareStep_audioInv (players : Nat)
    (acc : List Frame × List AudioEntry) (r : RawFrame)
    (h : audioInv acc.1 acc.2) :
    audioInv (prepareStep players acc r).1 (prepareStep players acc r).2 := by
  unfold prepareStep
  cases hidx : indexOfUrl acc.2 r.url with
  | some j =>
      intro fr hfr
      simp only [List.mem_append, List.mem_singleton] at hfr
      rcases hfr with hold | hnew
      · exact h fr hold
      · subst hnew
        have hspec := indexOfUrl_spec acc.2 r.url j hidx
        refine ⟨?_, hspec⟩
        rcases hget : acc.2.get? j with _ | a
        · rw [hget] at hspec; simp at hspec
        · exact (List.get?_eq_some.mp hget).1
  | none =>
      intro fr hfr
      simp only [List.mem_append, List.mem_singleton] at hfr
      rcases hfr with hold | hnew
      · obtain ⟨hlt, hurl⟩ := h fr hold
        refine ⟨by simp; omega, ?_⟩
        rw [List.get?_append hlt]
        exact hurl
      · subst hnew
        refine ⟨by simp, ?_⟩
        rw [List.get?_concat_length]
        rfl

theorem prepare_foldl_audioInv (players : Nat) (l : List RawFrame)
    (fs : List Frame) (au : List AudioEntry) (h : audioInv fs au) :
    audioInv (List.foldl (prepareStep players) (fs, au) l).1
      (List.foldl (prepareStep players) (fs, au) l).2 := by
  induction l generalizing fs au with
  | nil => simpa using h
  | cons r l ih =>
      have hstep := prepareStep_audioInv players (fs, au) r h
      rcases hps : prepareStep players (fs, au) r with ⟨fs2, au2⟩
      rw [hps] at hstep
      simpa only [List.foldl_cons, hps] using ih fs2 au2 hstep

theorem floor_ten_eq_max (d : Int) : (if d < 10 then 10 else d) = max 10 d := by
  rcases le_or_lt 10 d with h | h
  · rw [if_neg (by omega), max_eq_right h]
  · rw [if_pos h, max_eq_left (by omega)]

theorem runEffDelay_le (d : Int) : runEffDelay d ≤ updateDelay := by
  simp only [runEffDelay, updateDelay]
  split_ifs <;> omega

theorem playRange_clamp (n : Nat) (a b : Int) (hn : 1 ≤ n)
    (hlo : min a b ≤ (n : Int) - 1) (hhi : 0 ≤ max a b) :
    0 ≤ (playRange n a b).1 ∧
    (playRange n a b).1 ≤ (playRange n a b).2 ∧
    (playRange n a b).2 ≤ (n : Int) - 1 := by
  have hn2 : (1 : Int) ≤ (n : Int) := by exact_mod_cast hn
  unfold playRange
  rcases le_total a b with hab | hab
  · rw [min_eq_left hab, max_eq_right hab] at *
    split_ifs <;> simp_all <;> omega
  · rw [min_eq_right hab, max_eq_left hab] at *
    split_ifs <;> simp_all <;> omega

/-! ### Claim theorems -/

/-- C7: for every input frame list, after the constructor's normalization
every frame satisfies `begin = -1 ∨ end = -1 ∨ begin ≤ end`; each bound
defaults to -1 when the supplied value is absent, falsy (0) or negative, and
an inverted bounded pair is swapped rather than rejected. -/
theorem C7_bound_repair (players : Nat) (raws : List RawFrame) :
    (∀ fr ∈ (prepare players raws).1,
        fr.beginMs = -1 ∨ fr.endMs = -1 ∨ fr.beginMs ≤ fr.endMs) ∧
    normBound none = -1 ∧
    (∀ n : Int, n ≤ 0 → normBound (some n) = -1) ∧
    (∀ bv ev : Int, 0 < ev → ev < bv →
        normPair (some bv) (some ev) = (ev, bv)) := by
  refine ⟨?_, rfl, ?_, ?_⟩
  · intro fr hfr
    obtain ⟨r, _, _, hb, he⟩ :=
      forall₂_mem_right (prepare_matches players raws) fr hfr
    rw [hb, he]
    exact normPair_repaired r.beginOpt r.endOpt
  · intro n hn
    simp [normBound, hn]
  · intro bv ev h1 h2
    simp only [normPair, normBound]
    split_ifs <;> simp_all <;> omega

/-- C7 witness: the inverted pair `{begin: 5, end: 3}` is normalized to
`begin = 3 ≤ end = 5`. -/
theorem C7_witness :
    ((⟨"a", 3, 5, 0⟩ : Frame).beginMs = -1 ∨
      (⟨"a", 3, 5, 0⟩ : Frame).endMs = -1 ∨
      (⟨"a", 3, 5, 0⟩ : Frame).beginMs ≤ (⟨"a", 3, 5, 0⟩ : Frame).endMs) ∧
    normBound none = -1 ∧ normBound (some (-2)) = -1 ∧
    normPair (some 5) (some 3) = (3, 5) :=
  ⟨(C7_bound_repair 1 [⟨"a", some 5, some 3⟩]).1 ⟨"a", 3, 5, 0⟩ (by decide),
   (C7_bound_repair 1 [⟨"a", some 5, some 3⟩]).2.1,
   (C7_bound_repair 1 [⟨"a", some 5, some 3⟩]).2.2.1 (-2) (by omega),
   (C7_bound_repair 1 [⟨"a", some 5, some 3⟩]).2.2.2 5 3 (by omega) (by omega)⟩

/-- C9: after construction every frame's `audioRef` is in bounds for the
`audio` array and points at the entry whose url equals the frame's url, so
every `audio[audioFrames[k].audioRef]` lookup made by `play` and by the
scheduler with a valid frame index is in bounds. -/
theorem C9_audioRef_inbounds (players : Nat) (raws : List RawFrame) :
    ∀ fr ∈ (prepare players raws).1,
      fr.audioRef < (prepare players raws).2.length ∧
      ((prepare players raws).2.get? fr.audioRef).map (fun a => a.url) =
        some fr.url := by
  have h := prepare_foldl_audioInv players raws [] []
    (by intro fr hfr; cases hfr)
  simpa only [prepare] using h

/-- C9 witness: in a three-frame, two-url list, the third frame is resolved
to the first audio entry. -/
theorem C9_witness :
    (⟨"a", 2, 5, 0⟩ : Frame).audioRef <
      (prepare 2 [⟨"a", some 0, none⟩, ⟨"b", none, some 7⟩,
        ⟨"a", some 5, some 2⟩]).2.length ∧
    ((prepare 2 [⟨"a", some 0, none⟩, ⟨"b", none, some 7⟩,
        ⟨"a", some 5, some 2⟩]).2.get?
      (⟨"a", 2, 5, 0⟩ : Frame).audioRef).map (fun a => a.url) =
      some (⟨"a", 2, 5, 0⟩ : Frame).url :=
  C9_audioRef_inbounds 2
    [⟨"a", some 0, none⟩, ⟨"b", none, some 7⟩, ⟨"a", some 5, some 2⟩]
    ⟨"a", 2, 5, 0⟩ (by decide)

/-- C2: the first `load` pass takes the creation branch for every track
(`audio[i].object` is still null), which never clears `doneLoading`, so the
pass ends in `run(0)` — the scheduler is started while the just-created
track is still in a not-Ready engine state (`readyState` 0) and no 50ms
re-poll is ever scheduled.  For contrast: a track whose object was already
bound and reports 0/1 would cause the 50ms retry, a bound track reporting 3
would set `errorsLoading`, and `errorsLoading` is sticky. -/
theorem C2_gate_bug :
    loadStep [none] false 0 =
      { tracks := [some 0], doneLoading := true, errorsLoading := false,
        action := LoadAction.run0 } ∧
    trackNotReadyYet (some 0) = true ∧
    (loadStep [some 1] false 0).action = LoadAction.retry50 ∧
    (loadStep [some 0] false 0).action = LoadAction.retry50 ∧
    (loadStep [some 3] false 0).errorsLoading = true ∧
    (loadStep [some 2] true 0).errorsLoading = true := by
  refine ⟨rfl, rfl, rfl, rfl, rfl, rfl⟩

/-- C10: the constructor mutates the caller's `audioFrames` array in place:
the cell the caller passed is overwritten with the prepared entries (begin
and end normalized, `audioRef` added, urls and order preserved), no new cell
is allocated, and the returned player aliases the caller's cell. -/
theorem C10_inplace (players addr : Nat) (store : List CellVal)
    (raws : List RawFrame) (h : store.get? addr = some (CellVal.raw raws)) :
    ∃ pr store2, constructPlayer players addr store = some (pr, store2) ∧
      pr.framesAddr = addr ∧
      pr.player.frames = (prepare players raws).1 ∧
      store2.get? addr = some (CellVal.prepared (prepare players raws).1) ∧
      store2.length = store.length ∧
      List.Forall₂ frameMatches raws (prepare players raws).1 := by
  have haddr : addr < store.length := (List.get?_eq_some.mp h).1
  have hcp : constructPlayer players addr store =
      some (⟨addr,
        { frames := (prepare players raws).1,
          audio := (prepare players raws).2,
          doneLoading := false, errorsLoading := false,
          fromFrame := -1, currentFrame := -1, toFrame := -1 }⟩,
        store.set addr (CellVal.prepared (prepare players raws).1)) := by
    unfold constructPlayer
    rw [h]
  refine ⟨_, _, hcp, rfl, rfl, ?_, by simp, prepare_matches players raws⟩
  rw [List.get?_eq_getElem?]
  exact List.getElem?_set_eq_of_lt _ haddr

/-- C6: when a precise wake-up is already pending (`threadTimeoutId` set),
any call to `run` returns immediately without touching the state — the
earlier pending wake-up wins — and `run` preserves the invariant that at
most one precise wake-up is pending at any time. -/
theorem C6_precise_wakeup (s : RunState) (d : Int)
    (hcorr : s.threadTimeoutId = none → preciseCount s = 0)
    (hle : preciseCount s ≤ 1) :
    (s.threadTimeoutId.isSome = true → runStep s d = s) ∧
    preciseCount (runStep s d) ≤ 1 := by
  constructor
  · intro hs
    unfold runStep
    rw [if_pos hs]
  · by_cases hs : s.threadTimeoutId.isSome = true
    · unfold runStep
      rw [if_pos hs]
      exact hle
    · have hnone : s.threadTimeoutId = none := by
        cases h : s.threadTimeoutId <;> simp_all
      have h0 := hcorr hnone
      unfold runStep
      rw [if_neg hs]
      simp only [preciseCount] at h0 ⊢
      cases hti : s.threadId with
      | none =>
          simp only [List.filter_append, List.length_append, List.filter,
            Bool.not_false, List.length_cons, List.length_nil]
          omega
      | some tid =>
          have hsub :
              ((s.pending.filter (fun t => t.tid ≠ tid)).filter
                (fun t => !t.isInterval)).length ≤
              (s.pending.filter (fun t => !t.isInterval)).length :=
            ((List.filter_sublist s.pending).filter _).length_le
          simp only [List.filter_append, List.length_append, List.filter,
            Bool.not_false, List.length_cons, List.length_nil]
          omega

/-- C6 witness: with the precise wake-up 7 pending, `run(25)` is a no-op. -/
theorem C6_witness :
    ((⟨some 7, none, [⟨7, false, 50⟩], 8⟩ : RunState).threadTimeoutId.isSome =
        true →
      runStep ⟨some 7, none, [⟨7, false, 50⟩], 8⟩ 25 =
        ⟨some 7, none, [⟨7, false, 50⟩], 8⟩) ∧
    preciseCount (runStep ⟨some 7, none, [⟨7, false, 50⟩], 8⟩ 25) ≤ 1 :=
  C6_precise_wakeup ⟨some 7, none, [⟨7, false, 50⟩], 8⟩ 25
    (by intro h; cases h) (by decide)

/-- C10 witness: a one-cell heap holding one raw frame. -/
theorem C10_witness :
    ∃ pr store2,
      constructPlayer 1 0 [CellVal.raw [⟨"a", some 9, some 4⟩]] =
        some (pr, store2) ∧
      pr.framesAddr = 0 ∧
      pr.player.frames = (prepare 1 [⟨"a", some 9, some 4⟩]).1 ∧
      store2.get? 0 =
        some (CellVal.prepared (prepare 1 [⟨"a", some 9, some 4⟩]).1) ∧
      store2.length = [CellVal.raw [⟨"a", some 9, some 4⟩]].length ∧
      List.Forall₂ frameMatches [⟨"a", some 9, some 4⟩]
        (prepare 1 [⟨"a", some 9, some 4⟩]).1 :=
  C10_inplace 1 0 [CellVal.raw [⟨"a", some 9, some 4⟩]]
    [⟨"a", some 9, some 4⟩] rfl

theorem thread_guard_false (st : PlayerState) (herr : st.errorsLoading = false)
    (hcf : st.currentFrame ≠ -1)
    (hin : st.fromFrame ≤ st.currentFrame ∧ st.currentFrame ≤ st.toFrame) :
    ¬(st.currentFrame = -1 ∨
      ¬(st.fromFrame ≤ st.currentFrame ∧ st.currentFrame ≤ st.toFrame) ∨
      st.errorsLoading = true) := by
  simp only [not_or, not_not]
  exact ⟨hcf, hin, by simp [herr]⟩

/-- C8: on a tick that finds playback still within the active frame, the
delay handed to `run` is `(frame.end if bounded else track.duration) -
position` floored at 10ms, and every delay `run` actually schedules is
additionally capped at the 100ms fallback interval `updateDelay`. -/
theorem C8_adaptive_delay (st : PlayerState) (obs : Obs) (cur : Frame)
    (herr : st.errorsLoading = false)
    (hcf : st.currentFrame ≠ -1)
    (hin : st.fromFrame ≤ st.currentFrame ∧ st.currentFrame ≤ st.toFrame)
    (hcur : frameAt? st.frames st.currentFrame = some cur)
    (hplay : obs.playState = true)
    (hwithin : cur.beginMs ≤ obs.position + 200 ∧
      (cur.endMs ≥ obs.position ∨ cur.endMs = -1))
    (hnorm : cur.endMs = -1 ∨ 0 < cur.endMs) :
    threadStep st obs = Except.ok ⟨st, [],
      some (max 10 ((if cur.endMs = -1 then obs.duration else cur.endMs) -
        obs.position)), false⟩ ∧
    (∀ s d t, t ∈ (runStep s d).pending →
      t ∈ s.pending ∨ t.delayMs ≤ updateDelay) := by
  constructor
  · have hd : (if cur.endMs > 0 then cur.endMs else obs.duration) =
        (if cur.endMs = -1 then obs.duration else cur.endMs) := by
      rcases hnorm with h | h
      · rw [if_neg (by omega), if_pos h]
      · rw [if_pos h, if_neg (by omega)]
    unfold threadStep
    rw [if_neg (thread_guard_false st herr hcf hin), hcur]
    simp only []
    rw [if_pos hplay, if_pos hwithin]
    simp only [hd, floor_ten_eq_max]
  · intro s d t ht
    unfold runStep at ht
    by_cases hs : s.threadTimeoutId.isSome = true
    · rw [if_pos hs] at ht
      exact Or.inl ht
    · rw [if_neg hs] at ht
      cases hti : s.threadId with
      | none =>
          rw [hti] at ht
          simp only [List.mem_append, List.mem_singleton] at ht
          rcases ht with h1 | h2
          · exact Or.inl h1
          · subst h2
            exact Or.inr (runEffDelay_le d)
      | some tid =>
          rw [hti] at ht
          simp only [List.mem_append, List.mem_singleton] at ht
          rcases ht with h1 | h2
          · exact Or.inl (List.mem_of_mem_filter h1)
          · subst h2
            exact Or.inr (runEffDelay_le d)

/-- C8 witness: on a frame bounded at 5000ms with position 4800ms the
scheduled delay is 200ms. -/
theorem C8_witness :
    threadStep
      { frames := [⟨"a", -1, 5000, 0⟩], audio := [⟨"comic_1_0", "a"⟩],
        doneLoading := true, errorsLoading := false,
        fromFrame := 0, currentFrame := 0, toFrame := 0 }
      ⟨true, 4800, 9000⟩ =
      Except.ok
        ⟨{ frames := [⟨"a", -1, 5000, 0⟩], audio := [⟨"comic_1_0", "a"⟩],
           doneLoading := true, errorsLoading := false,
           fromFrame := 0, currentFrame := 0, toFrame := 0 },
         [],
         some (max 10 ((if (5000 : Int) = -1 then (9000 : Int) else 5000) -
           4800)),
         false⟩ ∧
    (∀ s d t, t ∈ (runStep s d).pending →
      t ∈ s.pending ∨ t.delayMs ≤ updateDelay) :=
  C8_adaptive_delay
    { frames := [⟨"a", -1, 5000, 0⟩], audio := [⟨"comic_1_0", "a"⟩],
      doneLoading := true, errorsLoading := false,
      fromFrame := 0, currentFrame := 0, toFrame := 0 }
    ⟨true, 4800, 9000⟩ ⟨"a", -1, 5000, 0⟩
    rfl (by decide) (by decide) rfl rfl (by decide) (by decide)

/-- C4: when the boundary of the active frame is crossed, more frames
remain, the next frame references the same track and its bounds are already
satisfied by the current position, the scheduler advances `currentFrame` by
one, issues zero engine seek/restart/stop commands, and emits exactly one
frame-change notification carrying the new index. -/
theorem C4_smooth_continuation (st : PlayerState) (obs : Obs) (cur nxt : Frame)
    (herr : st.errorsLoading = false)
    (hcf : st.currentFrame ≠ -1)
    (hin : st.fromFrame ≤ st.currentFrame ∧ st.currentFrame ≤ st.toFrame)
    (hcur : frameAt? st.frames st.currentFrame = some cur)
    (hplay : obs.playState = true)
    (hcross : ¬(cur.beginMs ≤ obs.position + 200 ∧
      (cur.endMs ≥ obs.position ∨ cur.endMs = -1)))
    (hnotlast : st.currentFrame ≠ st.toFrame)
    (hnxt : frameAt? st.frames (st.currentFrame + 1) = some nxt)
    (hsame : nxt.audioRef = cur.audioRef)
    (hbnds : nxt.beginMs ≤ obs.position ∧
      (nxt.endMs ≥ obs.position ∨ nxt.endMs = -1)) :
    threadStep st obs = Except.ok
      ⟨{ st with currentFrame := st.currentFrame + 1 },
       [Ev.notify (st.currentFrame + 1)], some 10, false⟩ := by
  unfold threadStep
  rw [if_neg (thread_guard_false st herr hcf hin), hcur]
  simp only []
  rw [if_pos hplay, if_neg hcross, if_neg hnotlast, hnxt]
  simp only []
  rw [if_pos ⟨hsame, hbnds.1, hbnds.2⟩]

/-- C4 witness: two contiguous frames `[0,5000]`, `[5000,10000]` on the same
track; at position 5100 the scheduler advances with a single notification
and no engine commands. -/
theorem C4_witness :
    threadStep
      { frames := [⟨"a", -1, 5000, 0⟩, ⟨"a", 5000, 10000, 0⟩],
        audio := [⟨"comic_1_0", "a"⟩],
        doneLoading := true, errorsLoading := false,
        fromFrame := 0, currentFrame := 0, toFrame := 1 }
      ⟨true, 5100, 12000⟩ =
      Except.ok
        ⟨{ frames := [⟨"a", -1, 5000, 0⟩, ⟨"a", 5000, 10000, 0⟩],
           audio := [⟨"comic_1_0", "a"⟩],
           doneLoading := true, errorsLoading := false,
           fromFrame := 0, currentFrame := 0 + 1, toFrame := 1 },
         [Ev.notify (0 + 1)], some 10, false⟩ :=
  C4_smooth_continuation
    { frames := [⟨"a", -1, 5000, 0⟩, ⟨"a", 5000, 10000, 0⟩],
      audio := [⟨"comic_1_0", "a"⟩],
      doneLoading := true, errorsLoading := false,
      fromFrame := 0, currentFrame := 0, toFrame := 1 }
    ⟨true, 5100, 12000⟩ ⟨"a", -1, 5000, 0⟩ ⟨"a", 5000, 10000, 0⟩
    rfl (by decide) (by decide) rfl rfl (by decide) (by decide) rfl rfl
    (by decide)

/-- C5: while a session is active (`currentFrame` indexes a frame) and the
active track's engine object reports it is playing, `play(a, b)` without the
force-restart flag stops all engine playback, sets `currentFrame` to -1 and
fires the frame-change notification with the idle sentinel -1. -/
theorem C5_toggle (st : PlayerState) (a b : Int)
    (herr : st.errorsLoading = false)
    (hdone : st.doneLoading = true)
    (hact : 0 ≤ st.currentFrame ∧ st.currentFrame < (st.frames.length : Int)) :
    playStep st a b false true = Except.ok
      ⟨{ st with fromFrame := (playRange st.frames.length a b).1,
                 toFrame := (playRange st.frames.length a b).2,
                 currentFrame := -1 },
       [Ev.stopAll, Ev.notify (-1)], some 0⟩ := by
  unfold playStep
  rw [if_neg (by simp [herr])]
  simp only [hdone]
  rw [if_pos ⟨hact, trivial, trivial⟩]
  simp [hdone]

/-- C5 witness: an active session playing frame 0; `play(0, 0)` toggles the
player off. -/
theorem C5_witness :
    playStep
      { frames := [⟨"a", -1, 5000, 0⟩], audio := [⟨"comic_1_0", "a"⟩],
        doneLoading := true, errorsLoading := false,
        fromFrame := 0, currentFrame := 0, toFrame := 0 }
      0 0 false true =
      Except.ok
        ⟨{ frames := [⟨"a", -1, 5000, 0⟩], audio := [⟨"comic_1_0", "a"⟩],
           doneLoading := true, errorsLoading := false,
           fromFrame := (playRange 1 0 0).1, toFrame := (playRange 1 0 0).2,
           currentFrame := -1 },
         [Ev.stopAll, Ev.notify (-1)], some 0⟩ :=
  C5_toggle
    { frames := [⟨"a", -1, 5000, 0⟩], audio := [⟨"comic_1_0", "a"⟩],
      doneLoading := true, errorsLoading := false,
      fromFrame := 0, currentFrame := 0, toFrame := 0 }
    0 0 rfl rfl (by decide)

/-- C3 counterexample: on a single-frame range `[0,0]` whose bounded end
(5000ms) is passed while the track still reports playing, the tick does
stop the engine, set `currentFrame := -1` and emit one idle notification —
but it then calls `run(10)` (the shared tail at lines 226-227 of the
source), so a further wake-up IS scheduled, refuting "schedules no further
wake-ups". -/
theorem C3_counterexample :
    runDelayOf (threadStep
      { frames := [⟨"a", -1, 5000, 0⟩], audio := [⟨"comic_1_0", "a"⟩],
        doneLoading := true, errorsLoading := false,
        fromFrame := 0, currentFrame := 0, toFrame := 0 }
      ⟨true, 6000, 8000⟩) = some 10 ∧
    threadStep
      { frames := [⟨"a", -1, 5000, 0⟩], audio := [⟨"comic_1_0", "a"⟩],
        doneLoading := true, errorsLoading := false,
        fromFrame := 0, currentFrame := 0, toFrame := 0 }
      ⟨true, 6000, 8000⟩ =
      Except.ok
        ⟨{ frames := [⟨"a", -1, 5000, 0⟩], audio := [⟨"comic_1_0", "a"⟩],
           doneLoading := true, errorsLoading := false,
           fromFrame := 0, currentFrame := -1, toFrame := 0 },
         [Ev.stopAll, Ev.notify (-1)], some 10, false⟩ :=
  ⟨rfl, rfl⟩

/-- C3 (amended): when a tick finds the boundary of the last frame in range
crossed (`currentFrame = toFrame` and, if the track still reports playing,
the frame's bounds no longer hold), the player stops all engine playback,
sets `currentFrame := -1` and emits exactly one idle notification; in the
still-playing path it makes one final `run(10)` call (none in the
not-playing path), and every subsequent tick from the idle state is a
no-op: no events, no notification, no further `run` call (it only clears
the timers). -/
theorem C3_amended (st : PlayerState) (obs : Obs) (cur : Frame)
    (herr : st.errorsLoading = false)
    (hcf : st.currentFrame ≠ -1)
    (hin : st.fromFrame ≤ st.currentFrame ∧ st.currentFrame ≤ st.toFrame)
    (hlast : st.currentFrame = st.toFrame)
    (hcur : frameAt? st.frames st.currentFrame = some cur)
    (hcross : obs.playState = true →
      ¬(cur.beginMs ≤ obs.position + 200 ∧
        (cur.endMs ≥ obs.position ∨ cur.endMs = -1))) :
    threadStep st obs = Except.ok
      ⟨{ st with currentFrame := -1 }, [Ev.stopAll, Ev.notify (-1)],
       if obs.playState = true then some 10 else none, false⟩ ∧
    (∀ obs2, threadStep { st with currentFrame := -1 } obs2 =
      Except.ok ⟨{ st with currentFrame := -1 }, [], none, true⟩) := by
  constructor
  · unfold threadStep
    rw [if_neg (thread_guard_false st herr hcf hin), hcur]
    simp only []
    by_cases hp : obs.playState = true
    · rw [if_pos hp, if_neg (hcross hp), if_pos hlast, if_pos hp]
    · rw [if_neg hp, if_pos hlast, if_neg hp]
  · intro obs2
    unfold threadStep
    rw [if_pos (Or.inl rfl)]

/-- C3 witness: the not-playing path on the last frame of the range. -/
theorem C3_witness :
    threadStep
      { frames := [⟨"a", -1, 5000, 0⟩], audio := [⟨"comic_1_0", "a"⟩],
        doneLoading := true, errorsLoading := false,
        fromFrame := 0, currentFrame := 0, toFrame := 0 }
      ⟨false, 2000, 8000⟩ =
      Except.ok
        ⟨{ frames := [⟨"a", -1, 5000, 0⟩], audio := [⟨"comic_1_0", "a"⟩],
           doneLoading := true, errorsLoading := false,
           fromFrame := 0, currentFrame := -1, toFrame := 0 },
         [Ev.stopAll, Ev.notify (-1)],
         if (false : Bool) = true then some 10 else none, false⟩ ∧
    (∀ obs2, threadStep
      { frames := [⟨"a", -1, 5000, 0⟩], audio := [⟨"comic_1_0", "a"⟩],
        doneLoading := true, errorsLoading := false,
        fromFrame := 0, currentFrame := -1, toFrame := 0 } obs2 =
      Except.ok
        ⟨{ frames := [⟨"a", -1, 5000, 0⟩], audio := [⟨"comic_1_0", "a"⟩],
           doneLoading := true, errorsLoading := false,
           fromFrame := 0, currentFrame := -1, toFrame := 0 },
         [], none, true⟩) :=
  C3_amended
    { frames := [⟨"a", -1, 5000, 0⟩], audio := [⟨"comic_1_0", "a"⟩],
      doneLoading := true, errorsLoading := false,
      fromFrame := 0, currentFrame := 0, toFrame := 0 }
    ⟨false, 2000, 8000⟩ ⟨"a", -1, 5000, 0⟩
    rfl (by decide) (by decide) rfl rfl (by intro h; cases h)

/-- C1 counterexample: on a one-frame player, `play(2, 3)` swaps nothing,
leaves `from = 2` (only clamped from below) and clamps `to` to 0, so the
resulting session range has `fromFrame = 2 > toFrame = 0` — and the JS call
then throws a `TypeError` indexing `audioFrames[2]`, with `currentFrame = 2`
outside the claimed invariant. -/
theorem C1_counterexample :
    playStep
      { frames := [⟨"a", -1, 5000, 0⟩], audio := [⟨"comic_1_0", "a"⟩],
        doneLoading := true, errorsLoading := false,
        fromFrame := -1, currentFrame := -1, toFrame := -1 }
      2 3 false false =
      Except.error
        { frames := [⟨"a", -1, 5000, 0⟩], audio := [⟨"comic_1_0", "a"⟩],
          doneLoading := true, errorsLoading := false,
          fromFrame := 2, currentFrame := 2, toFrame := 0 } ∧
    ¬((2 : Int) ≤ (0 : Int)) :=
  ⟨rfl, by omega⟩

/-- C1 (amended): for a player with at least one frame and arguments whose
swapped pair overlaps the valid range (`min from to ≤ frameCount-1` and
`max from to ≥ 0`), `play` yields an effective range with
`0 ≤ fromFrame ≤ toFrame ≤ frameCount-1`, the call completes and leaves a
state satisfying the session invariant, and every completed scheduler tick
preserves the invariant `fromFrame ≤ currentFrame ≤ toFrame` while active. -/
theorem C1_range_invariant (st : PlayerState) (a b : Int)
    (noToggle playing : Bool)
    (hn : 1 ≤ st.frames.length)
    (herr : st.errorsLoading = false)
    (hlo : min a b ≤ (st.frames.length : Int) - 1)
    (hhi : 0 ≤ max a b) :
    (0 ≤ (playRange st.frames.length a b).1 ∧
     (playRange st.frames.length a b).1 ≤ (playRange st.frames.length a b).2 ∧
     (playRange st.frames.length a b).2 ≤ (st.frames.length : Int) - 1) ∧
    (∃ out, playStep st a b noToggle playing = Except.ok out ∧
      sessionInv out.state) ∧
    (∀ s obs out2, threadStep s obs = Except.ok out2 → sessionInv s →
      sessionInv out2.state) := by
  have hrange := playRange_clamp st.frames.length a b hn hlo hhi
  refine ⟨hrange, ?_, ?_⟩
  · unfold playStep
    rw [if_neg (by simp [herr])]
    by_cases hT : (0 ≤ st.currentFrame ∧
        st.currentFrame < (st.frames.length : Int)) ∧
        playing = true ∧ noToggle = false
    · rw [if_pos hT]
      exact ⟨_, rfl, fun h => absurd rfl h⟩
    · rw [if_neg hT]
      have hlt : ((playRange st.frames.length a b).1).toNat <
          st.frames.length := by
        omega
      have hfa : frameAt? st.frames (playRange st.frames.length a b).1 =
          some (st.frames.get
            ⟨((playRange st.frames.length a b).1).toNat, hlt⟩) := by
        unfold frameAt?
        rw [if_neg (by omega), List.get?_eq_get hlt]
      rw [hfa]
      exact ⟨_, rfl, fun _ => ⟨le_refl _, hrange.2.1⟩⟩
  · intro s obs out2 h hs
    unfold threadStep at h
    by_cases hg : s.currentFrame = -1 ∨
        ¬(s.fromFrame ≤ s.currentFrame ∧ s.currentFrame ≤ s.toFrame) ∨
        s.errorsLoading = true
    · rw [if_pos hg] at h
      injection h with h2
      subst h2
      exact hs
    · rw [if_neg hg] at h
      have hin2 : s.fromFrame ≤ s.currentFrame ∧
          s.currentFrame ≤ s.toFrame := by
        rcases not_or.mp hg with ⟨h1, h2⟩
        exact not_not.mp (not_or.mp h2).1
      repeat' split at h
      all_goals try exact Except.noConfusion h
      all_goals injection h with h2
      all_goals subst h2
      all_goals intro hne
      all_goals simp only [sessionInv] at *
      all_goals simp_all
      all_goals omega

/-- C1 witness: two frames, arguments `(-5, 9)` are clamped to `[0, 1]`. -/
theorem C1_witness :
    (0 ≤ (playRange 2 (-5) 9).1 ∧
     (playRange 2 (-5) 9).1 ≤ (playRange 2 (-5) 9).2 ∧
     (playRange 2 (-5) 9).2 ≤ (2 : Int) - 1) ∧
    (∃ out, playStep
      { frames := [⟨"a", -1, 5000, 0⟩, ⟨"b", 100, 900, 1⟩],
        audio := [⟨"comic_1_0", "a"⟩, ⟨"comic_1_1", "b"⟩],
        doneLoading := true, errorsLoading := false,
        fromFrame := -1, currentFrame := -1, toFrame := -1 }
      (-5) 9 false false = Except.ok out ∧
      sessionInv out.state) ∧
    (∀ s obs out2, threadStep s obs = Except.ok out2 → sessionInv s →
      sessionInv out2.state) :=
  C1_range_invariant
    { frames := [⟨"a", -1, 5000, 0⟩, ⟨"b", 100, 900, 1⟩],
      audio := [⟨"comic_1_0", "a"⟩, ⟨"comic_1_1", "b"⟩],
      doneLoading := true, errorsLoading := false,
      fromFrame := -1, currentFrame := -1, toFrame := -1 }
    (-5) 9 false false (by decide) rfl (by decide) (by decide)

end ComicPlayer
